import Mathlib

/-!
Verification of the speech I/O subsystem of the GPTrivia repository
(`tts_manager.py`, `stt_manager.py`), shallowly embedded in Lean 4.

Python strings are modelled as `List Char`; Python `int` as `Int` where the
value `-1` matters (`str.rfind`), `Nat` elsewhere; `exit(1)` as
`Except.error 1`; a Python exception raised by an opaque provider call as
`Except.error ()` supplied as a parameter.
-/

namespace GPTrivia

/-- Python `str.isspace` restricted to the ASCII whitespace characters
(`str.strip()` removes exactly the characters for which this holds). -/
def pyIsSpace (c : Char) : Bool :=
  c == ' ' || c == '\t' || c == '\n' || c == '\r' || c == '\x0b' || c == '\x0c'

/-- Python `s.rfind(x, 0, stop)`: the largest index `i < stop` with
`s[i] = x` (necessarily `i < len(s)`), or `-1` if there is none. -/
def pyRfind (s : List Char) (x : Char) : Nat → Int
  | 0 => -1
  | stop + 1 =>
      if stop < s.length && s.getD stop ' ' == x then (stop : Int)
      else pyRfind s x stop

/-- Python `max([s.rfind(x, 0, stop) for x in cs])`: every `rfind` result is
`≥ -1`, so folding `max` with initial value `-1` agrees with Python's `max`
over the (nonempty) comprehension. -/
def tierMax (s : List Char) (cs : List Char) (stop : Nat) : Int :=
  (cs.map (fun x => pyRfind s x stop)).foldl max (-1)

/-- `tier1_splits` from `TextToSpeechManager._smart_split`. -/
def tier1_splits : List Char := ['.', '?', '!']

/-- `tier2_splits` from `TextToSpeechManager._smart_split`. -/
def tier2_splits : List Char := [':', ';', '—']

/-- `tier3_splits` from `TextToSpeechManager._smart_split`. -/
def tier3_splits : List Char := [',']

/-- `tier4_splits` from `TextToSpeechManager._smart_split`. -/
def tier4_splits : List Char := [' ']

/-- `tier1_additions` from `TextToSpeechManager._smart_split`. -/
def tier1_additions : List Char := ['"', '?', '!']

/-- The loop `while idx+1 < len(content) and content[idx+1] in
tier1_additions: idx += 1` from `_smart_split`. -/
def extendIdx (s : List Char) (idx : Nat) : Nat :=
  if h : idx + 1 < s.length ∧ s.getD (idx + 1) ' ' ∈ tier1_additions then
    extendIdx s (idx + 1)
  else idx
termination_by s.length - idx
decreasing_by omega

/-- One split-point computation of `_smart_split`'s loop body: the cascade of
`rfind` maxima over the four tiers (with the tier-1 extension past
`tier1_additions`), returning `none` exactly when every tier yields `-1`
(the `break` case). The returned index is the Python `idx` before the final
`idx += 1`. -/
def splitStep (max_len : Nat) (content : List Char) : Option Nat :=
  let idx1 := tierMax content tier1_splits max_len
  if idx1 == -1 then
    let idx2 := tierMax content tier2_splits max_len
    if idx2 == -1 then
      let idx3 := tierMax content tier3_splits max_len
      if idx3 == -1 then
        let idx4 := tierMax content tier4_splits max_len
        if idx4 == -1 then none
        else some idx4.toNat
      else some idx3.toNat
    else some idx2.toNat
  else some (extendIdx content idx1.toNat)

/-- Python `s.strip()`: remove leading and trailing whitespace. -/
def pyStrip (s : List Char) : List Char :=
  List.rdropWhile pyIsSpace (s.dropWhile pyIsSpace)

/-- `TextToSpeechManager._smart_split(content, max_len)`: repeatedly, while
the remaining text is longer than `max_len`, find a split index via the tier
cascade (`splitStep`); on `none`, `break`; otherwise emit
`content[:idx+1].strip()` and continue on `content[idx+1:]`; finally append
`content.strip()`. -/
def smart_split (content : List Char) (max_len : Nat) : List (List Char) :=
  if content.length > max_len then
    match splitStep max_len content with
    | none => [pyStrip content]
    | some idx =>
        pyStrip (content.take (idx + 1)) :: smart_split (content.drop (idx + 1)) max_len
  else [pyStrip content]
termination_by content.length
decreasing_by simp only [List.length_drop]; omega

/-- `TextToSpeechManager._clean_input(content, avoid_ellipses)`: removes the
`trash` characters `'\n'` and `'\t'` (via `str.replace(char, "")`); the
`avoid_ellipses` branch evaluates `content.replace("...", ",")` and
`content.replace("…", ",")` but discards both results (they are not assigned
back), so it leaves `content` unchanged. -/
def clean_input (content : List Char) (avoid_ellipses : Bool := false) : List Char :=
  let content := content.filter (fun c => c != '\n')
  let content := content.filter (fun c => c != '\t')
  if avoid_ellipses then content else content

/-! ### Manager construction (`TextToSpeechManager.__init__`,
`SpeechToTextManager.__init__`) -/

/-- The `enabled` flags of the TTS config
(`config["eleven"|"azure"|"bark"]["enabled"]`). -/
structure TTSConfig where
  eleven_enabled : Bool
  azure_enabled : Bool
  bark_enabled : Bool
deriving DecidableEq

/-- Runtime environment of `tts_manager.py`: whether each optional import
succeeded (`_ELEVEN_LOAD`, `_AZURE_LOAD`, `_BARK_LOAD`) and whether
`ELEVEN_API_KEY` is set. -/
structure TTSEnv where
  eleven_load : Bool
  azure_load : Bool
  bark_load : Bool
  eleven_api_key : Bool
deriving DecidableEq

/-- The provider-selection flags of a constructed `TextToSpeechManager`. -/
structure TTSManager where
  use_eleven : Bool
  use_azure : Bool
  use_bark : Bool
deriving DecidableEq

/-- Python's `sum` over booleans counts `True` as 1. -/
def boolNat (b : Bool) : Nat := if b then 1 else 0

/-- `sum([config[key]["enabled"] for key in config.keys()])` for the TTS
config. -/
def tts_enabled_count (config : TTSConfig) : Nat :=
  boolNat config.eleven_enabled + boolNat config.azure_enabled +
    boolNat config.bark_enabled

/-- `TextToSpeechManager.__init__`, with `exit(1)` modelled as
`Except.error 1`. In source order: more than one enabled module exits;
ElevenLabs enabled and importable but `ELEVEN_API_KEY` unset exits; a module
that is enabled but failed to import only logs a warning and leaves its
`use` flag false. -/
def tts_init (config : TTSConfig) (env : TTSEnv) : Except Nat TTSManager :=
  if tts_enabled_count config > 1 then
    .error 1
  else
    let use_eleven := env.eleven_load && config.eleven_enabled
    if use_eleven && !env.eleven_api_key then
      .error 1
    else
      .ok { use_eleven := use_eleven,
            use_azure := env.azure_load && config.azure_enabled,
            use_bark := env.bark_load && config.bark_enabled }

/-- The `enabled` flags of the STT config
(`config["azure"|"openai"]["enabled"]`). -/
structure STTConfig where
  azure_enabled : Bool
  openai_enabled : Bool
deriving DecidableEq

/-- Runtime environment of `stt_manager.py`: whether the Azure import
succeeded (`_AZURE_LOAD`) and whether `SPEECH_KEY` / `SPEECH_REGION` are
set. -/
structure STTEnv where
  azure_load : Bool
  speech_key : Bool
  speech_region : Bool
deriving DecidableEq

/-- The provider-selection flags of a constructed `SpeechToTextManager`. -/
structure STTManager where
  use_azure : Bool
  use_openai : Bool
deriving DecidableEq

/-- `sum([config[key]["enabled"] for key in config.keys()])` for the STT
config. -/
def stt_enabled_count (config : STTConfig) : Nat :=
  boolNat config.azure_enabled + boolNat config.openai_enabled

/-- `SpeechToTextManager.__init__`, with `exit(1)` modelled as
`Except.error 1`. In source order: more than one enabled module exits; Azure
enabled and importable but `SPEECH_KEY` or `SPEECH_REGION` unset exits;
`use_openai` is set from the config with no availability or credential
check. -/
def stt_init (config : STTConfig) (env : STTEnv) : Except Nat STTManager :=
  if stt_enabled_count config > 1 then
    .error 1
  else
    let use_azure := env.azure_load && config.azure_enabled
    if use_azure && (!env.speech_key || !env.speech_region) then
      .error 1
    else
      .ok { use_azure := use_azure, use_openai := config.openai_enabled }

/-- `SpeechToTextManager.using_stt`. -/
def using_stt (m : STTManager) : Bool := m.use_azure || m.use_openai

/-! ### `speak` and the bark synthesis pipeline -/

/-- `TextToSpeechManager.speak`: dispatches to the selected provider in
source order (eleven, bark, azure), each provider call being an opaque
computation that either returns a boolean or raises (`Except.error ()`); a
raised exception is caught by the `try`/`except`, logged, and `False` is
returned; if no provider is selected the final `return False` is reached. -/
def speak (m : TTSManager) (eleven bark azure : Except Unit Bool) : Bool :=
  match (if m.use_eleven then some eleven
         else if m.use_bark then some bark
         else if m.use_azure then some azure
         else none) with
  | some (.ok b) => b
  | some (.error _) => false
  | none => false

/-- Sequential synthesis of the segments by `bark.generate_audio`, modelled
as an opaque `gen` that may raise: a Python `for` loop of `gen` calls raises
as soon as one call raises, abandoning the remaining iterations. -/
def generate_all {A : Type} (gen : List Char → Except Unit A) :
    List (List Char) → Except Unit (List A)
  | [] => .ok []
  | t :: ts =>
      match gen t with
      | .error e => .error e
      | .ok a =>
          match generate_all gen ts with
          | .error e => .error e
          | .ok rest => .ok (a :: rest)

/-- The streaming branch of `_speak_bark` as executed by the main thread:
the pre-seed loop synthesizes the first `min(stream_preload, len(contents))`
segments, then the main loop synthesizes the rest; each audio is `put` on
the queue. There is no `try`/`except` around `generate_audio`, so a
synthesis exception propagates out of `_speak_bark`; on success the function
returns `True`. (Playback runs in the consumer thread; its exceptions cannot
change the return value.) -/
def speak_bark_stream {A : Type} (gen : List Char → Except Unit A)
    (stream_preload : Nat) (contents : List (List Char)) : Except Unit Bool :=
  let k := min stream_preload contents.length
  match generate_all gen (contents.take k) with
  | .error e => .error e
  | .ok _pre =>
      match generate_all gen (contents.drop k) with
      | .error e => .error e
      | .ok _rest => .ok true

/-! ### The streaming queue as a transition system (C5) -/

/-- State of the streaming branch of `_speak_bark` once the consumer thread
has been started: segments not yet synthesized, the FIFO `audio_queue`
contents (each audio buffer identified with its source segment), the
`gen_done` event, and the segments already played. -/
structure StreamState where
  pending : List (List Char)
  queue : List (List Char)
  gen_done : Bool
  played : List (List Char)
deriving DecidableEq

/-- Initial state: before `cycle.start()`, the producer pre-seeds
`min(stream_preload, len(contents))` synthesized segments into the queue. -/
def init_stream (stream_preload : Nat) (contents : List (List Char)) :
    StreamState :=
  { pending := contents.drop (min stream_preload contents.length)
    queue := contents.take (min stream_preload contents.length)
    gen_done := false
    played := [] }

/-- Interleaving semantics of the streaming pipeline: the producer `put`s
the next synthesized segment — the `audio_queue = Queue()` is constructed
with no `maxsize`, so `put` has no capacity guard and never blocks; the
consumer `get`s the head and plays it; after its loop the producer sets
`gen_done`. -/
inductive StreamStep : StreamState → StreamState → Prop
  | produce (t : List Char) (rest q p : List (List Char)) :
      StreamStep ⟨t :: rest, q, false, p⟩ ⟨rest, q ++ [t], false, p⟩
  | consume (pend : List (List Char)) (a : List Char) (q p : List (List Char))
      (d : Bool) :
      StreamStep ⟨pend, a :: q, d, p⟩ ⟨pend, q, d, p ++ [a]⟩
  | set_done (q p : List (List Char)) :
      StreamStep ⟨[], q, false, p⟩ ⟨[], q, true, p⟩

/-- States reachable from the post-pre-seed initial state. -/
def StreamReachable (stream_preload : Nat) (contents : List (List Char))
    (s : StreamState) : Prop :=
  Relation.ReflTransGen StreamStep (init_stream stream_preload contents) s

theorem stream_conservation {stream_preload : Nat}
    {contents : List (List Char)} {s : StreamState}
    (h : StreamReachable stream_preload contents s) :
    s.pending.length + s.queue.length + s.played.length = contents.length := by
  induction h with
  | refl =>
      simp only [init_stream, List.length_drop, List.length_take,
        List.length_nil]
      omega
  | tail hsteps hstep ih =>
      cases hstep <;> simp only [List.length_cons, List.length_append,
        List.length_singleton, List.length_nil] at ih ⊢ <;> omega

/-! ### Speech-to-text `get_next` (C7) -/

/-- Outcome of the Azure push-to-talk recognition in `_get_azure`: either
the `recognized` callback never fired (`speech_recognition_result is None`),
or it delivered a result with one of the SDK reasons. -/
inductive AzureResult
  | noCallback
  | recognized (text : List Char)
  | noMatch
  | canceled
deriving DecidableEq

/-- `SpeechToTextManager._get_azure`: returns the text only when speech was
recognized with nonempty text; `None` in every other case. -/
def get_azure : AzureResult → Option (List Char)
  | .noCallback => none
  | .recognized t => if t.length = 0 then none else some t
  | .noMatch => none
  | .canceled => none

/-- `junk_strings` from `SpeechToTextManager._filter_openai_junk`. -/
def junk_strings : List (List Char) :=
  ["MBC 뉴스 이덕영입니다.".data,
   "워싱턴에서 MBC 뉴스 이덕영입니다.".data,
   "😍😍😍😍".data,
   "😆 😆".data,
   "ご視聴ありがとうございました。".data,
   "Thank you so much for watching !".data,
   "지금까지 신선한 경제였습니다.".data,
   "ご視聴ありがとうございました".data,
   "시청해 주셔서 감사합니다.".data,
   "Thank you for watching.".data,
   "You".data,
   "You.".data,
   "できましたできました ご視聴ありがとうございました".data,
   "KATHRYN".data]

/-- `SpeechToTextManager._filter_openai_junk`: a junk transcript is replaced
by the Python string literal `"None"` (four characters), not by the value
`None`. -/
def filter_openai_junk (input : List Char) : List Char :=
  if input ∈ junk_strings then "None".data else input

/-- `SpeechToTextManager._get_openai` after the transcription API returned a
transcript. -/
def get_openai (transcript : List Char) : List Char :=
  filter_openai_junk transcript

/-- `SpeechToTextManager.get_next`: dispatches on the configured backend;
the provider interactions are opaque computations that may raise
(`Except.error ()`), in which case the `try`/`except` yields `None`; with
neither backend selected the final `return None` is reached. -/
def get_next (m : STTManager) (azure : Except Unit AzureResult)
    (openai_transcript : Except Unit (List Char)) : Option (List Char) :=
  if m.use_azure then
    match azure with
    | .error _ => none
    | .ok r => get_azure r
  else if m.use_openai then
    match openai_transcript with
    | .error _ => none
    | .ok t => some (get_openai t)
  else none

/-! ### Unfolding lemmas for `smart_split` -/

theorem smart_split_of_none {content : List Char} {max_len : Nat}
    (h : content.length > max_len) (hs : splitStep max_len content = none) :
    smart_split content max_len = [pyStrip content] := by
  rw [smart_split.eq_def, if_pos h, hs]

theorem smart_split_of_some {content : List Char} {max_len idx : Nat}
    (h : content.length > max_len) (hs : splitStep max_len content = some idx) :
    smart_split content max_len =
      pyStrip (content.take (idx + 1)) ::
        smart_split (content.drop (idx + 1)) max_len := by
  rw [smart_split.eq_def, if_pos h, hs]

theorem smart_split_of_short {content : List Char} {max_len : Nat}
    (h : ¬ content.length > max_len) :
    smart_split content max_len = [pyStrip content] := by
  rw [smart_split.eq_def, if_neg h]

/-- Every run of `smart_split` arises by trimming the blocks of a partition of
the input: the untrimmed slices concatenate to the input, in order. -/
theorem smart_split_pieces (max_len : Nat) (content : List Char) :
    ∃ pieces : List (List Char),
      pieces.flatten = content ∧ smart_split content max_len = pieces.map pyStrip := by
  by_cases h : content.length > max_len
  · cases hs : splitStep max_len content with
    | none =>
        exact ⟨[content], by simp, by rw [smart_split_of_none h hs]; rfl⟩
    | some idx =>
        obtain ⟨ps, hj, hsp⟩ := smart_split_pieces max_len (content.drop (idx + 1))
        refine ⟨content.take (idx + 1) :: ps, ?_, ?_⟩
        · simp [hj]
        · rw [smart_split_of_some h hs, hsp]; rfl
  · exact ⟨[content], by simp, by rw [smart_split_of_short h]; rfl⟩
termination_by content.length
decreasing_by simp only [List.length_drop]; omega

/-! ### Whitespace-filter lemmas -/

theorem filter_dropWhile {α : Type} {p q : α → Bool}
    (h : ∀ a, q a → p a = false) (l : List α) :
    (l.dropWhile q).filter p = l.filter p := by
  induction l with
  | nil => rfl
  | cons a t ih =>
      by_cases hq : q a
      · rw [List.dropWhile_cons_of_pos hq, ih, List.filter_cons_of_neg]
        simp [h a hq]
      · rw [List.dropWhile_cons_of_neg hq]

theorem filter_pyStrip (s : List Char) :
    (pyStrip s).filter (fun c => !pyIsSpace c) = s.filter (fun c => !pyIsSpace c) := by
  have h : ∀ c, pyIsSpace c → (!pyIsSpace c) = false := by
    intro c hc; simp [hc]
  unfold pyStrip List.rdropWhile
  rw [List.filter_reverse, filter_dropWhile h, List.filter_reverse,
    List.reverse_reverse, filter_dropWhile h]

theorem filter_join_map_pyStrip (ps : List (List Char)) :
    ((ps.map pyStrip).flatten).filter (fun c => !pyIsSpace c)
      = (ps.flatten).filter (fun c => !pyIsSpace c) := by
  induction ps with
  | nil => rfl
  | cons a t ih => simp only [List.map_cons, List.flatten_cons, List.filter_append,
      filter_pyStrip, ih]

/-! ### Bounds on `pyRfind`, `tierMax` and `splitStep` -/

theorem pyRfind_lt (s : List Char) (x : Char) (stop : Nat) :
    pyRfind s x stop < (stop : Int) := by
  induction stop with
  | zero => simp [pyRfind]
  | succ n ih =>
      rw [pyRfind]
      split
      · omega
      · omega

theorem neg_one_le_pyRfind (s : List Char) (x : Char) (stop : Nat) :
    -1 ≤ pyRfind s x stop := by
  induction stop with
  | zero => simp [pyRfind]
  | succ n ih =>
      rw [pyRfind]
      split
      · omega
      · omega

theorem foldl_max_lt {l : List Int} {b init : Int}
    (hb : init < b) (h : ∀ x ∈ l, x < b) : l.foldl max init < b := by
  induction l generalizing init with
  | nil => exact hb
  | cons a t ih =>
      exact ih (max_lt hb (h a (List.mem_cons_self a t)))
        (fun x hx => h x (List.mem_cons_of_mem a hx))

theorem le_foldl_max {l : List Int} {init : Int} : init ≤ l.foldl max init := by
  induction l generalizing init with
  | nil => exact le_refl _
  | cons a t ih => exact le_trans (le_max_left init a) ih

theorem tierMax_lt (s : List Char) (cs : List Char) (stop : Nat) :
    tierMax s cs stop < (stop : Int) := by
  refine foldl_max_lt (by omega) ?_
  intro x hx
  obtain ⟨c, _, rfl⟩ := List.mem_map.mp hx
  exact pyRfind_lt s c stop

theorem neg_one_le_tierMax (s : List Char) (cs : List Char) (stop : Nat) :
    -1 ≤ tierMax s cs stop :=
  le_foldl_max

/-- Every index returned by `splitStep` is either a tier-2/3/4 `rfind` result
(hence `< max_len`) or the `tier1_additions`-extension of a tier-1 `rfind`
result that is itself `< max_len`. -/
theorem splitStep_some_cases {content : List Char} {max_len idx : Nat}
    (hs : splitStep max_len content = some idx) :
    ∃ i0 : Nat, i0 < max_len ∧ (idx = extendIdx content i0 ∨ idx = i0) := by
  have h1lt := tierMax_lt content tier1_splits max_len
  have h2lt := tierMax_lt content tier2_splits max_len
  have h3lt := tierMax_lt content tier3_splits max_len
  have h4lt := tierMax_lt content tier4_splits max_len
  have h1le := neg_one_le_tierMax content tier1_splits max_len
  have h2le := neg_one_le_tierMax content tier2_splits max_len
  have h3le := neg_one_le_tierMax content tier3_splits max_len
  have h4le := neg_one_le_tierMax content tier4_splits max_len
  simp only [splitStep] at hs
  split at hs
  · split at hs
    · split at hs
      · split at hs
        · simp at hs
        · rename_i h4
          simp only [beq_iff_eq] at h4
          obtain rfl : (tierMax content tier4_splits max_len).toNat = idx :=
            Option.some.inj hs
          exact ⟨_, by omega, Or.inr rfl⟩
      · rename_i h3
        simp only [beq_iff_eq] at h3
        obtain rfl : (tierMax content tier3_splits max_len).toNat = idx :=
          Option.some.inj hs
        exact ⟨_, by omega, Or.inr rfl⟩
    · rename_i h2
      simp only [beq_iff_eq] at h2
      obtain rfl : (tierMax content tier2_splits max_len).toNat = idx :=
        Option.some.inj hs
      exact ⟨_, by omega, Or.inr rfl⟩
  · rename_i h1
    simp only [beq_iff_eq] at h1
    obtain rfl : extendIdx content (tierMax content tier1_splits max_len).toNat = idx :=
      Option.some.inj hs
    exact ⟨(tierMax content tier1_splits max_len).toNat, by omega, Or.inl rfl⟩

/-- The slice up to the extended index is the slice up to the original index
followed by characters that are all in `tier1_additions`. -/
theorem extendIdx_take (s : List Char) (i : Nat) :
    ∃ mid : List Char, s.take (extendIdx s i + 1) = s.take (i + 1) ++ mid ∧
      ∀ c ∈ mid, c ∈ tier1_additions := by
  by_cases h : i + 1 < s.length ∧ s.getD (i + 1) ' ' ∈ tier1_additions
  · rw [extendIdx, dif_pos h]
    obtain ⟨mid, hm, hall⟩ := extendIdx_take s (i + 1)
    refine ⟨s.getD (i + 1) ' ' :: mid, ?_, ?_⟩
    · rw [hm]
      have ht : s.take (i + 1 + 1) = s.take (i + 1) ++ [s.getD (i + 1) ' '] := by
        rw [List.take_succ]
        congr 1
        rw [List.getElem?_eq_getElem h.1]
        simp [List.getD, List.getElem?_eq_getElem h.1]
      rw [ht, List.append_assoc]
      rfl
    · intro c hc
      rcases List.mem_cons.mp hc with rfl | hc
      · exact h.2
      · exact hall c hc
  · rw [extendIdx, dif_neg h]
    exact ⟨[], by simp, by simp⟩
termination_by s.length - i
decreasing_by omega

/-! ### Length bounds for emitted segments (C2) -/

/-- The Boolean test `c in tier1_additions`. -/
def isClosing (c : Char) : Bool := decide (c ∈ tier1_additions)

/-- Remove the trailing run of closing-punctuation (`tier1_additions`)
characters. -/
def dropClosing (s : List Char) : List Char := List.rdropWhile isClosing s

theorem closing_not_space : ∀ c ∈ tier1_additions, pyIsSpace c = false := by
  decide

theorem length_dropWhile_le (p : Char → Bool) (l : List Char) :
    (l.dropWhile p).length ≤ l.length :=
  (List.dropWhile_sublist p).length_le

theorem length_rdropWhile_le (p : Char → Bool) (l : List Char) :
    (List.rdropWhile p l).length ≤ l.length := by
  rw [List.rdropWhile, List.length_reverse]
  calc (l.reverse.dropWhile p).length ≤ l.reverse.length :=
        length_dropWhile_le p l.reverse
    _ = l.length := List.length_reverse l

theorem length_pyStrip_le (l : List Char) : (pyStrip l).length ≤ l.length :=
  le_trans (length_rdropWhile_le _ _) (length_dropWhile_le _ _)

theorem mem_of_mem_rdropWhile {p : Char → Bool} {l : List Char} {c : Char}
    (h : c ∈ List.rdropWhile p l) : c ∈ l := by
  rw [List.rdropWhile, List.mem_reverse] at h
  exact List.mem_reverse.mp (List.dropWhile_subset p h)

theorem dropClosing_all {l : List Char} (h : ∀ c ∈ l, c ∈ tier1_additions) :
    dropClosing l = [] :=
  List.rdropWhile_eq_nil_iff.mpr (fun x hx => decide_eq_true (h x hx))

theorem dropClosing_append_le (u mid : List Char)
    (hmid : ∀ c ∈ mid, c ∈ tier1_additions) :
    (dropClosing (u ++ mid)).length ≤ u.length := by
  rw [dropClosing, List.rdropWhile, List.length_reverse, List.reverse_append,
    List.dropWhile_append_of_pos]
  · calc (u.reverse.dropWhile isClosing).length ≤ u.reverse.length :=
        length_dropWhile_le _ _
      _ = u.length := List.length_reverse u
  · intro a ha
    exact decide_eq_true (hmid a (List.mem_reverse.mp ha))

/-- Bound for a single emitted segment: stripping and then removing the
trailing closing-punctuation run leaves at most `max_len` characters. -/
theorem splitStep_segment_bound {content : List Char} {max_len idx : Nat}
    (hs : splitStep max_len content = some idx) :
    (dropClosing (pyStrip (content.take (idx + 1)))).length ≤ max_len := by
  obtain ⟨i0, hi0, hcase⟩ := splitStep_some_cases hs
  have hshort : ∀ l : List Char, l.length ≤ max_len →
      (dropClosing (pyStrip l)).length ≤ max_len := by
    intro l hl
    exact le_trans (length_rdropWhile_le _ _) (le_trans (length_pyStrip_le l) hl)
  have htk : (content.take (i0 + 1)).length ≤ max_len := by
    simp only [List.length_take]
    omega
  rcases hcase with rfl | rfl
  · -- tier-1 with extension: take (idx+1) = take (i0+1) ++ mid, mid ⊆ additions
    obtain ⟨mid, hdec, hall⟩ := extendIdx_take content i0
    rw [hdec]
    simp only [pyStrip, List.dropWhile_append]
    split
    · -- the `take (i0+1)` part strips to nothing: what remains lies inside `mid`
      have hsub : ∀ c ∈ List.rdropWhile pyIsSpace (mid.dropWhile pyIsSpace),
          c ∈ tier1_additions := by
        intro c hc
        exact hall c (List.dropWhile_subset _ (mem_of_mem_rdropWhile hc))
      rw [dropClosing_all hsub]
      simp
    · rcases List.eq_nil_or_concat mid with rfl | ⟨mid', m, rfl⟩
      · rw [List.append_nil]
        exact hshort _ htk
      · have hm : m ∈ tier1_additions := hall m (by simp [List.concat_eq_append])
        have hmns : ¬ (pyIsSpace m = true) := by
          simp [closing_not_space m hm]
        rw [List.concat_eq_append, ← List.append_assoc,
          List.rdropWhile_concat_neg pyIsSpace _ m hmns, List.append_assoc]
        refine le_trans (dropClosing_append_le _ (mid' ++ [m]) ?_) ?_
        · intro c hc
          refine hall c ?_
          simpa [List.concat_eq_append] using hc
        · exact le_trans (length_dropWhile_le _ _) htk
  · -- tiers 2–4: the segment is at most `i0 + 1 ≤ max_len` characters long
    exact hshort _ htk

/-! ### Occurrence characterization of `pyRfind` and `tierMax` -/

theorem le_pyRfind_of_occ {s : List Char} {x : Char} {stop j : Nat}
    (hjs : j < stop) (hjl : j < s.length) (hx : s.getD j ' ' = x) :
    (j : Int) ≤ pyRfind s x stop := by
  induction stop with
  | zero => omega
  | succ n ih =>
      rw [pyRfind]
      split
      · exact_mod_cast by omega
      · rename_i hc
        rcases Nat.lt_succ_iff_lt_or_eq.mp hjs with hlt | rfl
        · exact ih hlt
        · exfalso
          rw [List.getD_eq_getElem?_getD, List.getElem?_eq_getElem hjl] at hx
          exact hc (by simp [hjl, hx])

theorem pyRfind_occ {s : List Char} {x : Char} {stop : Nat} {n : Int}
    (h : pyRfind s x stop = n) (hn : 0 ≤ n) :
    n.toNat < stop ∧ n.toNat < s.length ∧ s.getD n.toNat ' ' = x := by
  induction stop with
  | zero =>
      rw [pyRfind] at h
      exfalso
      omega
  | succ m ih =>
      rw [pyRfind] at h
      split at h
      · rename_i hc
        simp only [Bool.and_eq_true, decide_eq_true_eq, beq_iff_eq] at hc
        have hm : n.toNat = m := by omega
        rw [hm]
        exact ⟨by omega, hc.1, hc.2⟩
      · obtain ⟨h1, h2, h3⟩ := ih h
        exact ⟨by omega, h2, h3⟩

theorem le_foldl_max_of_mem {l : List Int} {init x : Int} (h : x ∈ l) :
    x ≤ l.foldl max init := by
  induction l generalizing init with
  | nil => cases h
  | cons a t ih =>
      rcases List.mem_cons.mp h with rfl | h
      · exact le_trans (le_max_right init x) le_foldl_max
      · exact ih h

theorem foldl_max_mem (l : List Int) (init : Int) :
    l.foldl max init = init ∨ l.foldl max init ∈ l := by
  induction l generalizing init with
  | nil => exact Or.inl rfl
  | cons a t ih =>
      rcases ih (max init a) with h | h
      · rcases max_choice init a with hm | hm
        · exact Or.inl (by rw [List.foldl_cons, h, hm])
        · refine Or.inr ?_
          rw [List.foldl_cons, h, hm]
          exact List.mem_cons_self a t
      · exact Or.inr (List.mem_cons_of_mem a h)

theorem le_tierMax_of_occ {s cs : List Char} {stop j : Nat} {x : Char}
    (hcs : x ∈ cs) (hjs : j < stop) (hjl : j < s.length) (hx : s.getD j ' ' = x) :
    (j : Int) ≤ tierMax s cs stop :=
  le_trans (le_pyRfind_of_occ hjs hjl hx)
    (le_foldl_max_of_mem (List.mem_map_of_mem _ hcs))

theorem tierMax_occ {s cs : List Char} {stop : Nat} {m : Int}
    (h : tierMax s cs stop = m) (hm : 0 ≤ m) :
    m.toNat < stop ∧ m.toNat < s.length ∧ s.getD m.toNat ' ' ∈ cs := by
  rw [tierMax] at h
  rcases foldl_max_mem (cs.map (fun x => pyRfind s x stop)) (-1) with he | he
  · rw [h] at he
    exfalso
    omega
  · rw [h] at he
    obtain ⟨x, hxcs, hpf⟩ := List.mem_map.mp he
    obtain ⟨h1, h2, h3⟩ := pyRfind_occ hpf hm
    exact ⟨h1, h2, h3 ▸ hxcs⟩

/-- If `r` is the rightmost tier-1 delimiter position in the window
`[0, max_len)`, then the tier-1 `rfind` maximum is exactly `r`. -/
theorem tierMax_eq_of_rightmost {content : List Char} {max_len r : Nat}
    (hrw : r < max_len) (hrl : r < content.length)
    (hmem : content.getD r ' ' ∈ tier1_splits)
    (hmax : ∀ j, j < max_len → j < content.length →
      content.getD j ' ' ∈ tier1_splits → j ≤ r) :
    tierMax content tier1_splits max_len = (r : Int) := by
  have hge : (r : Int) ≤ tierMax content tier1_splits max_len :=
    le_tierMax_of_occ hmem hrw hrl rfl
  have h0 : 0 ≤ tierMax content tier1_splits max_len := le_trans (by omega) hge
  obtain ⟨h1, h2, h3⟩ := tierMax_occ rfl h0
  have := hmax _ h1 h2 h3
  omega

/-! ### `pyStrip` idempotence -/

theorem dropWhile_pyStrip (s : List Char) :
    (pyStrip s).dropWhile pyIsSpace = pyStrip s := by
  cases hps : pyStrip s with
  | nil => rfl
  | cons a t =>
      rw [List.dropWhile_cons, if_neg ?_]
      obtain ⟨u, hu⟩ := List.rdropWhile_prefix pyIsSpace (s.dropWhile pyIsSpace)
      have hu' : pyStrip s ++ u = s.dropWhile pyIsSpace := hu
      rw [hps] at hu'
      have hcons : s.dropWhile pyIsSpace = a :: (t ++ u) := by
        rw [← hu']
        simp
      have hh := List.head_dropWhile_not pyIsSpace s (by rw [hcons]; simp)
      simp only [hcons, List.head_cons] at hh
      simpa using hh

theorem pyStrip_idem (s : List Char) : pyStrip (pyStrip s) = pyStrip s := by
  show List.rdropWhile pyIsSpace ((pyStrip s).dropWhile pyIsSpace) = pyStrip s
  rw [dropWhile_pyStrip, pyStrip, List.rdropWhile_idempotent]

/-- `smart_split` always returns at least one segment. -/
theorem smart_split_ne_nil (content : List Char) (max_len : Nat) :
    smart_split content max_len ≠ [] := by
  by_cases h : content.length > max_len
  · cases hs : splitStep max_len content with
    | none => rw [smart_split_of_none h hs]; simp
    | some idx => rw [smart_split_of_some h hs]; simp
  · rw [smart_split_of_short h]; simp

/-! ### Claim theorems: segmenter -/

/-- C1: segmentation round-trips. The segments of `smart_split content L` are
the whitespace-trimmed blocks of a partition of `content` (so every segment is
a trimmed contiguous slice of the input, the slices appear in source order),
and concatenating all segments preserves every non-whitespace character. -/
theorem C1_smart_split_round_trip (content : List Char) (max_len : Nat) :
    (∃ pieces : List (List Char),
        pieces.flatten = content ∧ smart_split content max_len = pieces.map pyStrip) ∧
    (smart_split content max_len).flatten.filter (fun c => !pyIsSpace c)
      = content.filter (fun c => !pyIsSpace c) := by
  obtain ⟨ps, hj, hs⟩ := smart_split_pieces max_len content
  refine ⟨⟨ps, hj, hs⟩, ?_⟩
  rw [hs, filter_join_map_pyStrip, hj]

/-- C2 counterexample: in `_smart_split("ab.!!cccc", 4)` a tier-1 split point
(the `'.'` at index 2) lies within the first 4 characters, yet the emitted
non-final segment `"ab.!!"` has length 5 > 4, because the boundary was
extended past the closing punctuation `'!'` characters. -/
theorem C2_counterexample :
    pyRfind "ab.!!cccc".data '.' 4 = 2 ∧
    smart_split "ab.!!cccc".data 4 = ["ab.!!".data, "cccc".data] ∧
    ¬ (∀ s ∈ (smart_split "ab.!!cccc".data 4).dropLast, s.length ≤ 4) := by
  have he : smart_split "ab.!!cccc".data 4 = ["ab.!!".data, "cccc".data] := by
    simp +decide [smart_split, splitStep, tierMax, pyRfind, extendIdx, pyStrip,
      List.rdropWhile, pyIsSpace, tier1_splits, tier2_splits, tier3_splits,
      tier4_splits, tier1_additions]
  refine ⟨by decide, he, ?_⟩
  rw [he]
  decide

/-- C2 (amended): every segment except possibly the last exceeds `max_len`
only by closing punctuation absorbed at a tier-1 split: removing its trailing
run of `tier1_additions` characters (`"`, `?`, `!`) leaves at most `max_len`
characters. In particular a non-final segment ending in none of those
characters has length at most `max_len`. -/
theorem C2_segment_length_bound (content : List Char) (max_len : Nat)
    (s : List Char) (hmem : s ∈ (smart_split content max_len).dropLast) :
    (dropClosing s).length ≤ max_len := by
  by_cases h : content.length > max_len
  · cases hs : splitStep max_len content with
    | none =>
        rw [smart_split_of_none h hs] at hmem
        simp at hmem
    | some idx =>
        rw [smart_split_of_some h hs] at hmem
        obtain ⟨r1, rs, hr⟩ :=
          List.exists_cons_of_ne_nil (smart_split_ne_nil (content.drop (idx + 1)) max_len)
        rw [hr, List.dropLast_cons₂] at hmem
        rcases List.mem_cons.mp hmem with rfl | hmem
        · exact splitStep_segment_bound hs
        · refine C2_segment_length_bound (content.drop (idx + 1)) max_len s ?_
          rw [hr]
          exact hmem
  · rw [smart_split_of_short h] at hmem
    simp at hmem
termination_by content.length
decreasing_by simp only [List.length_drop]; omega

/-- C2 witness: a concrete non-final segment satisfying the bound. -/
theorem C2_segment_length_bound_witness :
    "Hello world.".data ∈ (smart_split "Hello world. How are you?".data 15).dropLast ∧
    (dropClosing "Hello world.".data).length ≤ 15 := by
  have he : smart_split "Hello world. How are you?".data 15
      = ["Hello world.".data, "How are you?".data] := by
    simp +decide [smart_split, splitStep, tierMax, pyRfind, extendIdx, pyStrip,
      List.rdropWhile, pyIsSpace, tier1_splits, tier2_splits, tier3_splits,
      tier4_splits, tier1_additions]
  have hmem : "Hello world.".data
      ∈ (smart_split "Hello world. How are you?".data 15).dropLast := by
    rw [he]
    decide
  exact ⟨hmem, C2_segment_length_bound _ 15 _ hmem⟩

/-- C8 counterexample: in `"ab.\"ddddd"` with limit 4 the rightmost tier-1
delimiter in the window is the `'.'` at index 2, but the split does not occur
there: the boundary is extended past the `'"'`, so the first segment is
`"ab.\""`, not `"ab."`. -/
theorem C8_counterexample :
    ("ab.\"ddddd".data.getD 2 ' ' ∈ tier1_splits ∧ 2 < 4 ∧
      (∀ j, j < 4 → j < "ab.\"ddddd".data.length →
        "ab.\"ddddd".data.getD j ' ' ∈ tier1_splits → j ≤ 2)) ∧
    smart_split "ab.\"ddddd".data 4 ≠
      pyStrip ("ab.\"ddddd".data.take (2 + 1)) ::
        smart_split ("ab.\"ddddd".data.drop (2 + 1)) 4 := by
  have he1 : smart_split "ab.\"ddddd".data 4 = ["ab.\"".data, "ddddd".data] := by
    simp +decide [smart_split, splitStep, tierMax, pyRfind, extendIdx, pyStrip,
      List.rdropWhile, pyIsSpace, tier1_splits, tier2_splits, tier3_splits,
      tier4_splits, tier1_additions]
  have he2 : smart_split ("ab.\"ddddd".data.drop (2 + 1)) 4 = ["\"ddddd".data] := by
    simp +decide [smart_split, splitStep, tierMax, pyRfind, extendIdx, pyStrip,
      List.rdropWhile, pyIsSpace, tier1_splits, tier2_splits, tier3_splits,
      tier4_splits, tier1_additions]
  refine ⟨by refine ⟨by decide, by decide, ?_⟩; decide, ?_⟩
  rw [he1, he2]
  decide

/-- C8 (amended): whenever a tier-1 delimiter (`.`, `?`, `!`) occurs within
the first `max_len` characters of the remaining text, the split occurs at the
rightmost such delimiter extended rightward past immediately following
`tier1_additions` characters (`"`, `?`, `!`); tiers 2–4 are not consulted. -/
theorem C8_tier1_preferred (content : List Char) (max_len r : Nat)
    (hlen : content.length > max_len)
    (hrw : r < max_len) (hrl : r < content.length)
    (hmem : content.getD r ' ' ∈ tier1_splits)
    (hmax : ∀ j, j < max_len → j < content.length →
      content.getD j ' ' ∈ tier1_splits → j ≤ r) :
    smart_split content max_len =
      pyStrip (content.take (extendIdx content r + 1)) ::
        smart_split (content.drop (extendIdx content r + 1)) max_len := by
  have ht := tierMax_eq_of_rightmost hrw hrl hmem hmax
  have hne : ¬ ((((r : Nat) : Int) == -1) = true) := by
    simp only [beq_iff_eq]
    omega
  have hs : splitStep max_len content = some (extendIdx content r) := by
    simp only [splitStep, ht]
    rw [if_neg hne, Int.toNat_natCast]
  exact smart_split_of_some hlen hs

/-- C8 witness: `"ab.cd,efghij"` with limit 6 contains a tier-1 `'.'` at
index 2 and a tier-3 `','` further right in the window; the split happens at
the (unextended) tier-1 position. -/
theorem C8_tier1_preferred_witness :
    ("ab.cd,efghij".data.length > 6 ∧ 2 < 6 ∧ 2 < "ab.cd,efghij".data.length ∧
      "ab.cd,efghij".data.getD 2 ' ' ∈ tier1_splits ∧
      (∀ j, j < 6 → j < "ab.cd,efghij".data.length →
        "ab.cd,efghij".data.getD j ' ' ∈ tier1_splits → j ≤ 2)) ∧
    smart_split "ab.cd,efghij".data 6 =
      pyStrip ("ab.cd,efghij".data.take (extendIdx "ab.cd,efghij".data 2 + 1)) ::
        smart_split ("ab.cd,efghij".data.drop (extendIdx "ab.cd,efghij".data 2 + 1)) 6 := by
  refine ⟨⟨by decide, by decide, by decide, by decide, by decide⟩,
    C8_tier1_preferred _ 6 2 (by decide) (by decide) (by decide) (by decide)
      (by decide)⟩

/-- C9 counterexample: `"\t\t\taaa.bbbbbb"` with limit 5 has no delimiter of
any tier within its first 5 characters, so one oversized segment
`"aaa.bbbbbb"` is emitted; but re-segmenting that segment with the same limit
splits it (stripping the leading tabs moved the `'.'` into the window), so
re-segmentation is not idempotent. -/
theorem C9_counterexample :
    splitStep 5 "\t\t\taaa.bbbbbb".data = none ∧
    smart_split "\t\t\taaa.bbbbbb".data 5 = ["aaa.bbbbbb".data] ∧
    4 < ("aaa.bbbbbb".data).length ∧
    smart_split "aaa.bbbbbb".data 5 ≠ ["aaa.bbbbbb".data] := by
  have h1 : splitStep 5 "\t\t\taaa.bbbbbb".data = none := by
    simp +decide [splitStep, tierMax, pyRfind, tier1_splits, tier2_splits,
      tier3_splits, tier4_splits]
  have h2 : smart_split "\t\t\taaa.bbbbbb".data 5 = ["aaa.bbbbbb".data] := by
    simp +decide [smart_split, splitStep, tierMax, pyRfind, extendIdx, pyStrip,
      List.rdropWhile, pyIsSpace, tier1_splits, tier2_splits, tier3_splits,
      tier4_splits, tier1_additions]
  have h3 : smart_split "aaa.bbbbbb".data 5 = ["aaa.".data, "bbbbbb".data] := by
    simp +decide [smart_split, splitStep, tierMax, pyRfind, extendIdx, pyStrip,
      List.rdropWhile, pyIsSpace, tier1_splits, tier2_splits, tier3_splits,
      tier4_splits, tier1_additions]
  refine ⟨h1, h2, by decide, ?_⟩
  rw [h3]
  decide

/-- C9 (amended): when the remaining text exceeds `max_len` and no delimiter
of any tier occurs in the window, the whole remaining text (stripped) is
emitted as the single final segment; re-segmenting that segment with the same
limit returns it unchanged provided the stripped text still has no split
point in its window (stripping leading non-space whitespace can otherwise
move a delimiter into the window). -/
theorem C9_oversized_halt (content : List Char) (max_len : Nat)
    (h1 : content.length > max_len) (h2 : splitStep max_len content = none) :
    smart_split content max_len = [pyStrip content] ∧
    (splitStep max_len (pyStrip content) = none →
      smart_split (pyStrip content) max_len = [pyStrip content]) := by
  refine ⟨smart_split_of_none h1 h2, fun h3 => ?_⟩
  by_cases h4 : (pyStrip content).length > max_len
  · rw [smart_split_of_none h4 h3, pyStrip_idem]
  · rw [smart_split_of_short h4, pyStrip_idem]

/-- C9 witness: the spec example `_smart_split("abcdefghij", 5)`, a
delimiter-free oversized text: one unsplit segment, and re-segmenting it is a
fixed point. -/
theorem C9_oversized_halt_witness :
    ("abcdefghij".data.length > 5 ∧ splitStep 5 "abcdefghij".data = none) ∧
    smart_split "abcdefghij".data 5 = [pyStrip "abcdefghij".data] ∧
    (splitStep 5 (pyStrip "abcdefghij".data) = none →
      smart_split (pyStrip "abcdefghij".data) 5 = [pyStrip "abcdefghij".data]) := by
  have hn : splitStep 5 "abcdefghij".data = none := by
    simp +decide [splitStep, tierMax, pyRfind, tier1_splits, tier2_splits,
      tier3_splits, tier4_splits]
  exact ⟨⟨by decide, hn⟩, C9_oversized_halt _ 5 (by decide) hn⟩

/-! ### Claim theorems: managers, pipeline, recognition -/

/-- C3: more than one enabled provider for a direction is fatal: the manager
constructor calls `exit(1)` (modelled as `Except.error 1`), so no manager is
produced and no provider is selected. -/
theorem C3_conflicting_config_fatal (tc : TTSConfig) (te : TTSEnv)
    (sc : STTConfig) (se : STTEnv) :
    (tts_enabled_count tc > 1 → tts_init tc te = .error 1) ∧
    (stt_enabled_count sc > 1 → stt_init sc se = .error 1) := by
  constructor
  · intro h
    simp [tts_init, h]
  · intro h
    simp [stt_init, h]

/-- C3 witness: two TTS providers enabled, and two STT providers enabled. -/
theorem C3_conflicting_config_fatal_witness :
    tts_enabled_count ⟨true, true, false⟩ > 1 ∧
    stt_enabled_count ⟨true, true⟩ > 1 ∧
    tts_init ⟨true, true, false⟩ ⟨true, true, true, true⟩ = .error 1 ∧
    stt_init ⟨true, true⟩ ⟨true, true, true⟩ = .error 1 :=
  ⟨by decide, by decide,
    (C3_conflicting_config_fatal ⟨true, true, false⟩ ⟨true, true, true, true⟩
      ⟨true, true⟩ ⟨true, true, true⟩).1 (by decide),
    (C3_conflicting_config_fatal ⟨true, true, false⟩ ⟨true, true, true, true⟩
      ⟨true, true⟩ ⟨true, true, true⟩).2 (by decide)⟩

theorem tts_init_degraded {tc : TTSConfig} {te : TTSEnv}
    (hcount : ¬ tts_enabled_count tc > 1)
    (hue : (te.eleven_load && tc.eleven_enabled) = false)
    (hua : (te.azure_load && tc.azure_enabled) = false)
    (hub : (te.bark_load && tc.bark_enabled) = false) :
    tts_init tc te = .ok ⟨false, false, false⟩ := by
  rw [tts_init, if_neg hcount]
  simp only [hue, hua, hub]
  simp

theorem stt_init_degraded {sc : STTConfig} {se : STTEnv}
    (hcount : ¬ stt_enabled_count sc > 1)
    (hua : (se.azure_load && sc.azure_enabled) = false)
    (hoo : sc.openai_enabled = false) :
    stt_init sc se = .ok ⟨false, false⟩ := by
  rw [stt_init, if_neg hcount]
  simp only [hua, hoo]
  simp

/-- C4 counterexample: a missing required credential is fatal, not a
degradation — ElevenLabs enabled and importable with `ELEVEN_API_KEY` unset
exits with code 1, and likewise Azure STT without `SPEECH_KEY`; and in the
genuine dependency-missing degradation `speak` returns `false`, not
`true`. -/
theorem C4_counterexample :
    tts_init ⟨true, false, false⟩ ⟨true, true, true, false⟩ = .error 1 ∧
    stt_init ⟨true, false⟩ ⟨true, false, true⟩ = .error 1 ∧
    tts_init ⟨true, false, false⟩ ⟨false, true, true, true⟩
      = .ok ⟨false, false, false⟩ ∧
    speak ⟨false, false, false⟩ (.ok true) (.ok true) (.ok true) = false :=
  ⟨rfl, rfl, rfl, rfl⟩

/-- C4 (amended): when every enabled provider's optional dependency failed
to import, construction succeeds after logging a warning and the manager is
a no-op: `speak` returns `false` without attempting synthesis (the caller
still displays the text) and `using_stt()` returns `false`. But a missing
required credential for an importable enabled provider is fatal:
ElevenLabs TTS without `ELEVEN_API_KEY`, and Azure STT without `SPEECH_KEY`
or `SPEECH_REGION`, exit with code 1. -/
theorem C4_unavailable_provider (tc : TTSConfig) (te : TTSEnv)
    (sc : STTConfig) (se : STTEnv) (pe pb pa : Except Unit Bool)
    (te2 : TTSEnv) (se2 : STTEnv)
    (htc : tts_enabled_count tc ≤ 1)
    (hte : tc.eleven_enabled = true → te.eleven_load = false)
    (hta : tc.azure_enabled = true → te.azure_load = false)
    (htb : tc.bark_enabled = true → te.bark_load = false)
    (hsc : stt_enabled_count sc ≤ 1)
    (hsa : sc.azure_enabled = true → se.azure_load = false)
    (hso : sc.openai_enabled = false)
    (hk1 : te2.eleven_load = true) (hk2 : te2.eleven_api_key = false)
    (hz1 : se2.azure_load = true)
    (hz2 : se2.speech_key = false ∨ se2.speech_region = false) :
    (tts_init tc te = .ok ⟨false, false, false⟩ ∧
      speak ⟨false, false, false⟩ pe pb pa = false) ∧
    (stt_init sc se = .ok ⟨false, false⟩ ∧ using_stt ⟨false, false⟩ = false) ∧
    tts_init ⟨true, false, false⟩ te2 = .error 1 ∧
    stt_init ⟨true, false⟩ se2 = .error 1 := by
  have hb : ∀ (a b : Bool), (a = true → b = false) → (b && a) = false := by
    intro a b h
    cases a
    · simp
    · simp [h rfl]
  refine ⟨⟨tts_init_degraded (by omega) (hb _ _ hte) (hb _ _ hta) (hb _ _ htb),
      rfl⟩,
    ⟨stt_init_degraded (by omega) (hb _ _ hsa) hso, rfl⟩, ?_, ?_⟩
  · rw [tts_init, if_neg (by decide)]
    simp [hk1, hk2]
  · rw [stt_init, if_neg (by decide)]
    rcases hz2 with h | h <;> simp [hz1, h]

/-- C4 witness: bark enabled but not importable degrades TTS to a no-op;
Azure STT enabled but not importable leaves `using_stt()` false; the two
credential cases exit fatally. -/
theorem C4_unavailable_provider_witness :
    (tts_enabled_count ⟨false, false, true⟩ ≤ 1 ∧
      stt_enabled_count ⟨true, false⟩ ≤ 1) ∧
    (tts_init ⟨false, false, true⟩ ⟨true, true, false, true⟩
        = .ok ⟨false, false, false⟩ ∧
      speak ⟨false, false, false⟩ (.ok true) (.ok true) (.ok true) = false) ∧
    (stt_init ⟨true, false⟩ ⟨false, true, true⟩ = .ok ⟨false, false⟩ ∧
      using_stt ⟨false, false⟩ = false) ∧
    tts_init ⟨true, false, false⟩ ⟨true, true, true, false⟩ = .error 1 ∧
    stt_init ⟨true, false⟩ ⟨true, false, true⟩ = .error 1 := by
  have h := C4_unavailable_provider ⟨false, false, true⟩ ⟨true, true, false, true⟩
    ⟨true, false⟩ ⟨false, true, true⟩ (.ok true) (.ok true) (.ok true)
    ⟨true, true, true, false⟩ ⟨true, false, true⟩
    (by decide) (by decide) (by decide) (by decide) (by decide) (by decide)
    (by decide) (by decide) (by decide) (by decide) (by decide)
  exact ⟨⟨by decide, by decide⟩, h.1, h.2.1, h.2.2.1, h.2.2.2⟩

/-- C5 counterexample: with `stream_preload = 1` and three segments, the
producer can run ahead of the consumer and a reachable state holds 3 > 1
synthesized-but-unplayed buffers: the queue is unbounded and the producer
never blocks on capacity. -/
theorem C5_counterexample :
    ∃ s : StreamState,
      StreamReachable 1 [['a'], ['b'], ['c']] s ∧ 1 < s.queue.length := by
  refine ⟨⟨[], [['a'], ['b'], ['c']], false, []⟩, ?_, by decide⟩
  have h0 : init_stream 1 [['a'], ['b'], ['c']]
      = ⟨[['b'], ['c']], [['a']], false, []⟩ := rfl
  have h1 : StreamStep ⟨[['b'], ['c']], [['a']], false, []⟩
      ⟨[['c']], [['a'], ['b']], false, []⟩ :=
    StreamStep.produce ['b'] [['c']] [['a']] []
  have h2 : StreamStep ⟨[['c']], [['a'], ['b']], false, []⟩
      ⟨[], [['a'], ['b'], ['c']], false, []⟩ :=
    StreamStep.produce ['c'] [] [['a'], ['b']] []
  rw [StreamReachable, h0]
  exact Relation.ReflTransGen.head h1 (Relation.ReflTransGen.single h2)

/-- C5 (amended): `stream_preload` bounds only the pre-seed — the initial
queue holds exactly `min(stream_preload, len(contents))` buffers; afterwards
the only invariant bound on the unbounded queue is the total segment count,
and a produce step is enabled whenever segments remain and generation is not
done, irrespective of the queue length: the producer never blocks on
capacity. -/
theorem C5_preload_only_preseed (stream_preload : Nat)
    (contents : List (List Char)) (s : StreamState)
    (hreach : StreamReachable stream_preload contents s) :
    (init_stream stream_preload contents).queue.length
        = min stream_preload contents.length ∧
    s.queue.length ≤ contents.length ∧
    (∀ (t : List Char) (rest q p : List (List Char)),
      StreamStep ⟨t :: rest, q, false, p⟩ ⟨rest, q ++ [t], false, p⟩) := by
  refine ⟨by simp [init_stream], ?_,
    fun t rest q p => StreamStep.produce t rest q p⟩
  have := stream_conservation hreach
  omega

/-- C5 witness: the initial (pre-seeded) state of a two-segment stream. -/
theorem C5_preload_only_preseed_witness :
    StreamReachable 1 [['x'], ['y']] (init_stream 1 [['x'], ['y']]) ∧
    (init_stream 1 [['x'], ['y']]).queue.length = min 1 2 ∧
    (init_stream 1 [['x'], ['y']]).queue.length ≤ 2 := by
  have hr : StreamReachable 1 [['x'], ['y']] (init_stream 1 [['x'], ['y']]) :=
    Relation.ReflTransGen.refl
  have h := C5_preload_only_preseed 1 [['x'], ['y']] _ hr
  exact ⟨hr, h.1, h.2.1⟩

theorem generate_all_error {A : Type} {gen : List Char → Except Unit A}
    {t : List Char} (hfail : gen t = .error ()) :
    ∀ l : List (List Char), t ∈ l → generate_all gen l = .error () := by
  intro l
  induction l with
  | nil => intro hl; cases hl
  | cons a as ih =>
      intro hl
      rcases List.mem_cons.mp hl with rfl | hl2
      · simp [generate_all, hfail]
      · cases hga : gen a with
        | error e => cases e; simp [generate_all, hga]
        | ok v => simp [generate_all, hga, ih hl2]

/-- A concrete synthesizer that raises exactly on the segment `"b"`. -/
def gen_fail_b (s : List Char) : Except Unit (List Char) :=
  if s = "b".data then .error () else .ok s

/-- C6 counterexample: only the middle segment fails to synthesize and the
audio device never fails, yet `speak` returns `false` — there is no
per-segment recovery in `_speak_bark`, so the failure is not skipped and the
pipeline does not continue. -/
theorem C6_counterexample :
    gen_fail_b "b".data = .error () ∧
    gen_fail_b "a".data = .ok "a".data ∧
    gen_fail_b "c".data = .ok "c".data ∧
    speak_bark_stream gen_fail_b 1 ["a".data, "b".data, "c".data]
      = .error () ∧
    speak ⟨false, false, true⟩ (.ok true)
      (speak_bark_stream gen_fail_b 1 ["a".data, "b".data, "c".data])
      (.ok true) = false :=
  ⟨rfl, rfl, rfl, rfl, rfl⟩

/-- C6 (amended): a synthesis failure on any one segment propagates out of
the (uncaught) `generate_audio` loops of `_speak_bark`; `speak`'s top-level
handler catches it, logs, and returns `false`. The segment is not skipped
and the pipeline does not continue. -/
theorem C6_synthesis_failure_aborts {A : Type} (gen : List Char → Except Unit A)
    (stream_preload : Nat) (contents : List (List Char)) (t : List Char)
    (m : TTSManager) (pe pa : Except Unit Bool)
    (hmem : t ∈ contents) (hfail : gen t = .error ())
    (he : m.use_eleven = false) (hb : m.use_bark = true) :
    speak_bark_stream gen stream_preload contents = .error () ∧
    speak m pe (speak_bark_stream gen stream_preload contents) pa = false := by
  have hsp : speak_bark_stream gen stream_preload contents = .error () := by
    simp only [speak_bark_stream]
    have hm2 : t ∈ contents.take (min stream_preload contents.length)
        ++ contents.drop (min stream_preload contents.length) := by
      rw [List.take_append_drop]
      exact hmem
    rcases List.mem_append.mp hm2 with h | h
    · simp [generate_all_error hfail _ h]
    · cases hga : generate_all gen
          (contents.take (min stream_preload contents.length)) with
      | error e => cases e; simp [hga]
      | ok v => simp [hga, generate_all_error hfail _ h]
  refine ⟨hsp, ?_⟩
  simp [speak, he, hb, hsp]

/-- C6 witness: the amended behavior at the concrete three-segment input. -/
theorem C6_synthesis_failure_aborts_witness :
    ("b".data ∈ ["a".data, "b".data, "c".data] ∧
      gen_fail_b "b".data = .error ()) ∧
    speak_bark_stream gen_fail_b 1 ["a".data, "b".data, "c".data]
      = .error () ∧
    speak ⟨false, false, true⟩ (.ok true)
      (speak_bark_stream gen_fail_b 1 ["a".data, "b".data, "c".data])
      (.ok true) = false := by
  have h := C6_synthesis_failure_aborts gen_fail_b 1
    ["a".data, "b".data, "c".data] "b".data ⟨false, false, true⟩
    (.ok true) (.ok true) (by decide) rfl rfl rfl
  exact ⟨⟨by decide, rfl⟩, h.1, h.2⟩

/-- C7 counterexample: the transcript `"You."` is classified as junk by
`_filter_openai_junk`, yet `get_next` with the OpenAI backend returns the
four-character string `"None"` — a non-null result, not Python `None`. -/
theorem C7_counterexample :
    "You.".data ∈ junk_strings ∧
    get_next ⟨false, true⟩ (.ok .noCallback) (.ok "You.".data)
      = some "None".data ∧
    get_next ⟨false, true⟩ (.ok .noCallback) (.ok "You.".data) ≠ none := by
  refine ⟨by decide, by decide, by decide⟩

/-- C7 (amended): `get_next` returns `None` when the provider call raises,
and with the Azure backend when the callback never fired, no speech matched,
recognition was canceled, or the recognized text is empty; but a junk OpenAI
transcript is replaced by the literal string `"None"` and returned as a
normal non-null result. -/
theorem C7_get_next_null (m : STTManager) (e2 : Except Unit (List Char))
    (e : Except Unit AzureResult) (t : List Char)
    (hjunk : t ∈ junk_strings) :
    get_next m (.error ()) (.error ()) = none ∧
    (m.use_azure = true →
      get_next m (.ok .noCallback) e2 = none ∧
      get_next m (.ok .noMatch) e2 = none ∧
      get_next m (.ok .canceled) e2 = none ∧
      get_next m (.ok (.recognized [])) e2 = none) ∧
    (m.use_azure = false → m.use_openai = true →
      get_next m e (.ok t) = some "None".data) := by
  refine ⟨?_, fun ha => ?_, fun ha ho => ?_⟩
  · by_cases ha : m.use_azure
    · simp [get_next, ha]
    · by_cases ho : m.use_openai <;> simp [get_next, ha, ho]
  · simp [get_next, ha, get_azure]
  · simp [get_next, ha, ho, get_openai, filter_openai_junk, hjunk]

/-- C7 witness: the amended behavior at concrete inputs. -/
theorem C7_get_next_null_witness :
    "You.".data ∈ junk_strings ∧
    get_next ⟨false, true⟩ (.error ()) (.error ()) = none ∧
    get_next ⟨false, true⟩ (.ok .noCallback) (.ok "You.".data)
      = some "None".data := by
  have h := C7_get_next_null ⟨false, true⟩ (.ok "You.".data) (.ok .noCallback)
    "You.".data (by decide)
  exact ⟨by decide, h.1, h.2.2 rfl rfl⟩

/-- C10: the `avoid_ellipses` flag of `_clean_input` has no observable effect
(the ellipsis `replace` calls discard their results), and for either flag
value the result is exactly the input with newline and tab characters
removed. -/
theorem C10_clean_input_flag_no_effect (content : List Char) :
    clean_input content true = clean_input content false ∧
    ∀ b : Bool, clean_input content b
      = content.filter (fun c => c != '\n' && c != '\t') := by
  refine ⟨rfl, fun b => ?_⟩
  cases b <;>
    · simp only [clean_input, List.filter_filter, ite_self]
      congr 1
      funext c
      exact Bool.and_comm _ _

end GPTrivia
